import Mathlib

/-!
Shallow embedding of `src/WebPastMachine.py` (a CLI that queries the
web.archive.org CDX index, deduplicates the returned URL rows, classifies
them by file extension and reports or exports the result).

Conventions of the embedding:
* Python strings are Lean `String`s; the model covers ASCII text (Python's
  Unicode-aware `str.lower`/`str.isalnum`/`\d` are modelled by their ASCII
  restrictions, which agree on every input appearing in the specification).
* `urllib.parse.urlparse` is modelled after CPython 3.11's `urlsplit` plus
  `_splitparams` (leading C0-control/space stripping, tab/CR/LF removal,
  scheme detection, netloc up to the first of `/?#`, fragment then query
  split, and the `;`-parameter split of the last path segment, applied only
  when the lowercased scheme is in `uses_params` and the path contains a
  `;`, exactly as `urlparse` guards it).  The IPv6
  bracket-validation and non-ASCII netloc checks of CPython are outside the
  model; claims touching `urlparse` are stated for bracket-free input.
* `datetime.strptime(ts, "%Y%m%d%H%M%S")` is modelled by the exact regex
  backtracking CPython's `_strptime` performs: `%Y` is four digits and each
  of `%m %d %H %M %S` is matched by its alternation (for example
  `1[0-2]|0[1-9]|[1-9]` for `%m`) explored in priority order with full
  backtracking, the whole string must be consumed, and the resulting fields
  must form a valid `datetime` (year 1..9999, day within the month, second
  at most 59).
* The process's observable behaviour (stdout prints, the output-file write
  and the exit status) is a `RunResult`; the network and the filesystem
  enter as explicit parameters (`FetchOutcome`, a write-success flag).
  Prints are modelled for the plain branch, i.e. `colorama_available =
  False`.
-/

/-- List of characters of a string (abbreviation used throughout). -/
def chars (s : String) : List Char := s.data

/-- String built from a list of characters. -/
def strOf (l : List Char) : String := String.mk l

/-- Membership of a character in CPython's `scheme_chars`
(letters, digits, `+`, `-`, `.`). -/
def isSchemeChar (c : Char) : Bool :=
  c.isAlphanum || c = '+' || c = '-' || c = '.'

/-- Python `str.lower` restricted to ASCII. -/
def pyLower (l : List Char) : List Char := l.map Char.toLower

/-- Characters removed anywhere in the URL by `urlsplit`
(`_UNSAFE_URL_BYTES_TO_REMOVE`). -/
def isTabCrLf (c : Char) : Bool := c = '\t' || c = '\r' || c = '\n'

/-- Membership in `_WHATWG_C0_CONTROL_OR_SPACE` (codepoints 0 to 32). -/
def isC0OrSpace (c : Char) : Bool := c.toNat ≤ 32

/-- Split a list at the first occurrence of `c`; `none` when absent.
Models Python `str.split(c, 1)` / `str.find(c)`. -/
def splitOnce (c : Char) : List Char → Option (List Char × List Char)
  | [] => none
  | x :: xs =>
    if x = c then some ([], xs)
    else (splitOnce c xs).map (fun p => (x :: p.1, p.2))

/-- Prefix of `l` before the first character satisfying `stop`
(models `_splitnetloc`'s scan for the earliest of `/?#`). -/
def takeUntil (stop : Char → Bool) : List Char → List Char
  | [] => []
  | c :: cs => if stop c then [] else c :: takeUntil stop cs

/-- Remainder of `l` from the first character satisfying `stop` on
(the delimiter included), matching `url[delim:]` in `_splitnetloc`. -/
def dropFromStop (stop : Char → Bool) : List Char → List Char
  | [] => []
  | c :: cs => if stop c then c :: cs else dropFromStop stop cs

/-- Result of `urlsplit` (the components the program reads). -/
structure SplitUrl where
  scheme : List Char
  netloc : List Char
  path : List Char
  query : List Char
  fragment : List Char
deriving Repr, DecidableEq

/-- Scheme-splitting step of `urlsplit`: a scheme is present when the first
`:` has a nonempty, letter-initial, scheme-char prefix before it. -/
def splitScheme (url : List Char) : List Char × List Char :=
  match splitOnce ':' url with
  | none => ([], url)
  | some (before, after) =>
    match before with
    | [] => ([], url)
    | c0 :: _ =>
      if c0.isAlpha && before.all isSchemeChar then (pyLower before, after)
      else ([], url)

/-- CPython 3.11 `urlsplit` for text input with fragments allowed, minus the
IPv6-bracket and non-ASCII netloc validation (see the module comment). -/
def pyUrlsplit (url : List Char) : SplitUrl :=
  let url := url.dropWhile isC0OrSpace
  let url := url.filter (fun c => !isTabCrLf c)
  let (scheme, url) := splitScheme url
  let (netloc, url) :=
    match url with
    | '/' :: '/' :: rest => (takeUntil (fun c => c = '/' || c = '?' || c = '#') rest,
                             dropFromStop (fun c => c = '/' || c = '?' || c = '#') rest)
    | _ => ([], url)
  let (url, fragment) :=
    match splitOnce '#' url with
    | some (a, b) => (a, b)
    | none => (url, [])
  let (url, query) :=
    match splitOnce '?' url with
    | some (a, b) => (a, b)
    | none => (url, [])
  { scheme := scheme, netloc := netloc, path := url, query := query, fragment := fragment }

/-- CPython `_splitparams`: the `;`-parameter part is split off the last
path segment (or the whole path when it has no `/`). -/
def splitParams (path : List Char) : List Char × List Char :=
  if path.contains '/' then
    let lastSeg := (path.reverse.takeWhile (fun c => c ≠ '/')).reverse
    let initPart := path.take (path.length - lastSeg.length)
    match splitOnce ';' lastSeg with
    | some (a, b) => (initPart ++ a, b)
    | none => (path, [])
  else
    match splitOnce ';' path with
    | some (a, b) => (a, b)
    | none => (path, [])

/-- CPython's `uses_params` list (Python 3.11): the schemes whose URLs may
carry `;`-parameters on the last path segment. -/
def usesParams : List String :=
  ["", "ftp", "hdl", "prospero", "http", "imap", "https", "shttp", "rtsp",
   "rtsps", "rtspu", "sip", "sips", "mms", "sftp", "tel"]

/-- The `.path` attribute of `urlparse(url)`: `urlsplit`, then
`_splitparams` only under `urlparse`'s guard `scheme in uses_params and
';' in url` (the scheme is already lowercased by `urlsplit`). -/
def pyUrlparsePath (url : String) : String :=
  let su := pyUrlsplit (chars url)
  if usesParams.contains (strOf su.scheme) && su.path.contains ';' then
    strOf (splitParams su.path).1
  else strOf su.path

/-- The `.netloc` attribute of `urlparse(url)`. -/
def pyUrlparseNetloc (url : String) : String :=
  strOf (pyUrlsplit (chars url)).netloc

/-- Python `str.isalnum` restricted to ASCII: nonempty and every character
alphanumeric. -/
def pyIsAlnum (s : String) : Bool :=
  !s.isEmpty && (chars s).all Char.isAlphanum

/-- Extension extracted from one URL by the body of `analyze_extensions`:
the lowercased part of `urlparse(url).path` after the last `.`, kept only
when the path contains a `.` and the part is alphanumeric of length < 6. -/
def extOf (url : String) : Option String :=
  let path := pyUrlparsePath url
  if (chars path).contains '.' then
    let ext := strOf (pyLower ((chars path).reverse.takeWhile (fun c => c ≠ '.')).reverse)
    if pyIsAlnum ext && ext.length < 6 then some ext else none
  else none

/-- Increment the count of key `k` in an insertion-ordered association
list, appending a fresh entry when absent (one step of `Counter`). -/
def bumpCount (l : List (String × Nat)) (k : String) : List (String × Nat) :=
  match l with
  | [] => [(k, 1)]
  | (k', n) :: t => if k' = k then (k', n + 1) :: t else (k', n) :: bumpCount t k

/-- Python `collections.Counter` over a list of strings, as an association
list whose keys appear in first-occurrence order. -/
def countList (ks : List String) : List (String × Nat) := ks.foldl bumpCount []

/-- `analyze_extensions` from the source: collect the per-URL extensions in
order and count them. -/
def analyze_extensions (urls : List String) : List (String × Nat) :=
  countList (urls.filterMap extOf)

/-- Count stored for key `e` (0 when absent), the `Counter` lookup. -/
def countOf (l : List (String × Nat)) (e : String) : Nat :=
  match l with
  | [] => 0
  | (k, n) :: t => if k = e then n else countOf t e

/-- Numeric value of an ASCII digit character. -/
def digitVal (c : Char) : Nat := c.toNat - 48

/-- Candidate matches of the `%m` regex `1[0-2]|0[1-9]|[1-9]`, as
(value, rest) pairs in the alternation's priority order. -/
def monthAlts (l : List Char) : List (Nat × List Char) :=
  (match l with
   | '1' :: c :: r => if '0' ≤ c && c ≤ '2' then [(10 + digitVal c, r)] else []
   | _ => []) ++
  (match l with
   | '0' :: c :: r => if '1' ≤ c && c ≤ '9' then [(digitVal c, r)] else []
   | _ => []) ++
  (match l with
   | c :: r => if '1' ≤ c && c ≤ '9' then [(digitVal c, r)] else []
   | _ => [])

/-- Candidate matches of the `%d` regex `3[01]|[12]\d|0[1-9]|[1-9]`. -/
def dayAlts (l : List Char) : List (Nat × List Char) :=
  (match l with
   | '3' :: c :: r => if c = '0' || c = '1' then [(30 + digitVal c, r)] else []
   | _ => []) ++
  (match l with
   | c1 :: c2 :: r =>
     if (c1 = '1' || c1 = '2') && c2.isDigit then [(10 * digitVal c1 + digitVal c2, r)] else []
   | _ => []) ++
  (match l with
   | '0' :: c :: r => if '1' ≤ c && c ≤ '9' then [(digitVal c, r)] else []
   | _ => []) ++
  (match l with
   | c :: r => if '1' ≤ c && c ≤ '9' then [(digitVal c, r)] else []
   | _ => [])

/-- Candidate matches of the `%H` regex `2[0-3]|[0-1]\d|\d`. -/
def hourAlts (l : List Char) : List (Nat × List Char) :=
  (match l with
   | '2' :: c :: r => if '0' ≤ c && c ≤ '3' then [(20 + digitVal c, r)] else []
   | _ => []) ++
  (match l with
   | c1 :: c2 :: r =>
     if (c1 = '0' || c1 = '1') && c2.isDigit then [(10 * digitVal c1 + digitVal c2, r)] else []
   | _ => []) ++
  (match l with
   | c :: r => if c.isDigit then [(digitVal c, r)] else []
   | _ => [])

/-- Candidate matches of the `%M` regex `[0-5]\d|\d`. -/
def minuteAlts (l : List Char) : List (Nat × List Char) :=
  (match l with
   | c1 :: c2 :: r =>
     if '0' ≤ c1 && c1 ≤ '5' && c2.isDigit then [(10 * digitVal c1 + digitVal c2, r)] else []
   | _ => []) ++
  (match l with
   | c :: r => if c.isDigit then [(digitVal c, r)] else []
   | _ => [])

/-- Candidate matches of the `%S` regex `6[0-1]|[0-5]\d|\d`. -/
def secondAlts (l : List Char) : List (Nat × List Char) :=
  (match l with
   | '6' :: c :: r => if c = '0' || c = '1' then [(60 + digitVal c, r)] else []
   | _ => []) ++
  (match l with
   | c1 :: c2 :: r =>
     if '0' ≤ c1 && c1 ≤ '5' && c2.isDigit then [(10 * digitVal c1 + digitVal c2, r)] else []
   | _ => []) ++
  (match l with
   | c :: r => if c.isDigit then [(digitVal c, r)] else []
   | _ => [])

/-- Calendar date-time produced by `strptime` / consumed by `strftime`. -/
structure PyDateTime where
  year : Nat
  month : Nat
  day : Nat
  hour : Nat
  minute : Nat
  second : Nat
deriving Repr, DecidableEq

/-- Gregorian leap-year test used by `datetime`. -/
def isLeapYear (y : Nat) : Bool := y % 4 = 0 && (y % 100 ≠ 0 || y % 400 = 0)

/-- Days in a month as validated by the `datetime` constructor. -/
def daysInMonth (y m : Nat) : Nat :=
  if m = 2 then (if isLeapYear y then 29 else 28)
  else if m = 4 || m = 6 || m = 9 || m = 11 then 30
  else 31

/-- Validity check of the `datetime` constructor on the matched fields
(the regex already bounds month, day ≤ 31, hour and minute; seconds 60 and
61 and day-of-month overflows are rejected here, as is year 0). -/
def datetimeOk (dt : PyDateTime) : Bool :=
  1 ≤ dt.year && dt.year ≤ 9999 &&
  1 ≤ dt.month && dt.month ≤ 12 &&
  1 ≤ dt.day && dt.day ≤ daysInMonth dt.year dt.month &&
  dt.hour ≤ 23 && dt.minute ≤ 59 && dt.second ≤ 59

/-- Depth-first search over the `%m%d%H%M%S` alternations, in the regex's
backtracking order; succeeds only when the whole input is consumed. -/
def matchMDHMS (y : Nat) (l : List Char) : Option PyDateTime :=
  (monthAlts l).findSome? fun mo =>
    (dayAlts mo.2).findSome? fun d =>
      (hourAlts d.2).findSome? fun h =>
        (minuteAlts h.2).findSome? fun mi =>
          (secondAlts mi.2).findSome? fun s =>
            if s.2.isEmpty then some ⟨y, mo.1, d.1, h.1, mi.1, s.1⟩ else none

/-- Model of `datetime.strptime(s, "%Y%m%d%H%M%S")`: four digits of year,
then the backtracking match of the remaining fields, then the `datetime`
constructor's validation.  `none` models the raised `ValueError`. -/
def pyStrptime14 (s : String) : Option PyDateTime :=
  match chars s with
  | c1 :: c2 :: c3 :: c4 :: rest =>
    if c1.isDigit && c2.isDigit && c3.isDigit && c4.isDigit then
      let y := 1000 * digitVal c1 + 100 * digitVal c2 + 10 * digitVal c3 + digitVal c4
      match matchMDHMS y rest with
      | some dt => if datetimeOk dt then some dt else none
      | none => none
    else none
  | _ => none

/-- Decimal digits of `n` zero-padded to width 2 (`strftime` `%m %d %H %M %S`). -/
def pad2 (n : Nat) : String :=
  if n < 10 then "0" ++ toString n else toString n

/-- Decimal digits of `n` zero-padded to width 4 (`strftime` `%Y` for the
years in scope; every timestamp in the claims has a four-digit year). -/
def pad4 (n : Nat) : String :=
  if n < 10 then "000" ++ toString n
  else if n < 100 then "00" ++ toString n
  else if n < 1000 then "0" ++ toString n
  else toString n

/-- Model of `.strftime("%Y-%m-%d %H:%M:%S")`. -/
def pyFormatDateTime (dt : PyDateTime) : String :=
  pad4 dt.year ++ "-" ++ pad2 dt.month ++ "-" ++ pad2 dt.day ++ " " ++
  pad2 dt.hour ++ ":" ++ pad2 dt.minute ++ ":" ++ pad2 dt.second

/-- Record stored in `unique_urls` for one URL. -/
structure CaptureRecord where
  date : String
  archive_link : String
  timestamp : String
deriving Repr, DecidableEq

/-- State threaded through the row-processing loop: the insertion-ordered
`unique_urls` dictionary and the `all_urls` list. -/
structure LoopState where
  unique : List (String × CaptureRecord)
  all_urls : List String
deriving Repr, DecidableEq

/-- Python exceptions that can escape one loop iteration (`KeyError` from a
missing column, `ValueError` from `strptime`); both are caught by the outer
`except Exception` handler. -/
inductive PyErr
  | keyError
  | valueError
deriving Repr, DecidableEq

/-- Value of `dict(zip(headers, url_data))[k]`: `zip` truncates to the
shorter list and a duplicate header makes the later pair win. -/
def dictGet (headers row : List String) (k : String) : Option String :=
  ((List.zip headers row).reverse.find? (fun p => p.1 == k)).map (fun p => p.2)

/-- Python `str.lower` on a whole string (ASCII model). -/
def pyLowerS (s : String) : String := strOf (pyLower (chars s))

/-- Python `str.endswith`. -/
def pyEndsWith (s sfx : String) : Bool := (chars sfx).isSuffixOf (chars s)

/-- Truth of `extension_filter and not original_url.lower().endswith("." +
extension_filter.lower())`: the row is skipped exactly when a truthy
(nonempty) filter is given and the suffix test fails. -/
def skipByFilter (ef : Option String) (url : String) : Bool :=
  match ef with
  | none => false
  | some f => f ≠ "" && !(pyEndsWith (pyLowerS url) ("." ++ pyLowerS f))

/-- First-match lookup in the ordered `unique_urls` dictionary (keys are
unique by construction, so this is the dictionary lookup). -/
def lookupRec (l : List (String × CaptureRecord)) (u : String) : Option CaptureRecord :=
  match l with
  | [] => none
  | (k, r) :: t => if k = u then some r else lookupRec t u

/-- Archive link built for a retained row. -/
def archiveLinkOf (timestamp url : String) : String :=
  "http://web.archive.org/web/" ++ timestamp ++ "/" ++ url

/-- Body of one iteration of the `for i, url_data in enumerate(urls)` loop
(sans the progress print, which touches no state): read `original`, apply
the extension filter, then on a first occurrence read and parse `timestamp`
and append the new record. -/
def processRow (ef : Option String) (headers : List String) (st : LoopState)
    (row : List String) : Except PyErr LoopState :=
  match dictGet headers row "original" with
  | none => .error .keyError
  | some original_url =>
    if skipByFilter ef original_url then .ok st
    else if (lookupRec st.unique original_url).isSome then .ok st
    else
      match dictGet headers row "timestamp" with
      | none => .error .keyError
      | some timestamp =>
        match pyStrptime14 timestamp with
        | none => .error .valueError
        | some dt =>
          .ok { unique := st.unique ++
                  [(original_url, ⟨pyFormatDateTime dt, archiveLinkOf timestamp original_url, timestamp⟩)],
                all_urls := st.all_urls ++ [original_url] }

/-- The whole loop over the data rows; an exception aborts it. -/
def processRows (ef : Option String) (headers : List String) (st : LoopState) :
    List (List String) → Except PyErr LoopState
  | [] => .ok st
  | r :: rs =>
    match processRow ef headers st r with
    | .error e => .error e
    | .ok st' => processRows ef headers st' rs

/-- Observable effects of the process: stdout prints (`stdoutProgress` is
the `end="\r"` progress print) and the output-file write. -/
inductive OutEvent
  | stdoutLine (s : String)
  | stdoutProgress (s : String)
  | fileWrite (path content : String)
deriving Repr, DecidableEq

/-- Progress print of iteration `i` (emitted when `i > 0 and i % 100 == 0`,
before any filtering of the row). -/
def progressEvents (i total : Nat) : List OutEvent :=
  if 0 < i ∧ i % 100 = 0 then
    [.stdoutProgress ("Processed " ++ toString i ++ "/" ++ toString total ++ " URLs")]
  else []

/-- The loop again, now also collecting its progress prints (the state
transitions are exactly those of `processRows`). -/
def processRowsEv (ef : Option String) (headers : List String) (total i : Nat)
    (st : LoopState) : List (List String) → List OutEvent × Except PyErr LoopState
  | [] => ([], .ok st)
  | r :: rs =>
    let ev := progressEvents i total
    match processRow ef headers st r with
    | .error e => (ev, .error e)
    | .ok st' =>
      let rest := processRowsEv ef headers total (i + 1) st' rs
      (ev ++ rest.1, rest.2)

/-- A line of 100 `-` characters (the block separator). -/
def sepLine100 : String := strOf (List.replicate 100 '-')

/-- A line of 50 `-` characters (under the analysis heading). -/
def sepLine50 : String := strOf (List.replicate 50 '-')

/-- Content `export_to_file` writes: four lines per URL in dictionary
(first-seen) order. -/
def exportContent (unique : List (String × CaptureRecord)) : String :=
  String.join (unique.map (fun p =>
    "URL: " ++ p.1 ++ "\n" ++
    "First capture: " ++ p.2.date ++ "\n" ++
    "Archive link: " ++ p.2.archive_link ++ "\n" ++
    sepLine100 ++ "\n"))

/-- Code-point lexicographic string comparison (Python's `str` order). -/
def strLE : List Char → List Char → Bool
  | [], _ => true
  | _ :: _, [] => false
  | x :: xs, y :: ys =>
    if x.toNat < y.toNat then true
    else if y.toNat < x.toNat then false
    else strLE xs ys

/-- Sort order of the extension report: `key=lambda x: (-x[1], x[0])`,
i.e. count descending, then name ascending. -/
def extLE (a b : String × Nat) : Prop :=
  b.2 < a.2 ∨ (a.2 = b.2 ∧ strLE (chars a.1) (chars b.1) = true)

instance : DecidableRel extLE := fun a b => by
  unfold extLE
  infer_instance

/-- Python's `sorted` on the counter items: a stable sort by the key above.
Keys of a `Counter` are distinct, so every correct sort (here Mathlib's
insertion sort) produces the identical list. -/
def sortedExtItems (counts : List (String × Nat)) : List (String × Nat) :=
  List.insertionSort extLE counts

/-- Prints of the file-type analysis section after its two heading lines. -/
def extReportEvents (counts : List (String × Nat)) : List OutEvent :=
  if counts.isEmpty then
    [.stdoutLine "No files with recognizable extensions were found"]
  else
    (sortedExtItems counts).map (fun p =>
      .stdoutLine ("*." ++ p.1 ++ ": " ++ toString p.2 ++ " files"))

/-- Stdout block printed for the results when no output file was given. -/
def stdoutBlocks (unique : List (String × CaptureRecord)) : List OutEvent :=
  .stdoutLine sepLine100 ::
  unique.flatMap (fun p =>
    [.stdoutLine ("URL: " ++ p.1),
     .stdoutLine ("First capture: " ++ p.2.date),
     .stdoutLine ("Archive link: " ++ p.2.archive_link),
     .stdoutLine sepLine100])

/-- Rendering of the exception caught by `except Exception` (the model
keeps only the exception's kind; the program interpolates `{e}`). -/
def pyErrMsg : PyErr → String
  | .keyError => "KeyError"
  | .valueError => "ValueError"

/-- Result of the modelled network interaction: a
`requests.exceptions.RequestException` (connection, timeout or
`raise_for_status` HTTP error), a `json.JSONDecodeError`, or the decoded
2D-array body. -/
inductive FetchOutcome
  | requestError (msg : String)
  | jsonError
  | ok (results : List (List String))
deriving Repr, DecidableEq

/-- Observable outcome of a whole process run: the ordered effects and the
process exit status (0 models falling off `main`, 1 models `sys.exit(1)`). -/
structure RunResult where
  events : List OutEvent
  exitCode : Nat
deriving Repr, DecidableEq

/-- Python `str.startswith`. -/
def pyStartsWith (s p : String) : Bool := (chars p).isPrefixOf (chars s)

/-- Scheme normalization at the top of `get_wayback_urls`. -/
def normalizeDomain (domain : String) : String :=
  if pyStartsWith domain "http://" || pyStartsWith domain "https://" then domain
  else "http://" ++ domain

/-- Query URL built for the host. -/
def waybackUrlFor (host : String) : String :=
  "https://web.archive.org/cdx/search/cdx?url=" ++ host ++ "/*&output=json&collapse=timestamp:4"

/-- Single HTTP request the Fetcher issues (`requests.get(..., timeout=30)`). -/
structure HttpRequest where
  url : String
  timeoutSeconds : Nat
deriving Repr, DecidableEq

/-- The request `get_wayback_urls` sends for a given domain argument. -/
def waybackRequest (domain : String) : HttpRequest :=
  { url := waybackUrlFor (pyUrlparseNetloc (normalizeDomain domain)),
    timeoutSeconds := 30 }

/-- Banner printed before the request (plain branch). -/
def searchBanner (parsedDomain : String) : OutEvent :=
  .stdoutLine ("\nSearching archived URLs for " ++ parsedDomain ++ "...\n")

/-- Events and exit status from the point where the decoded response is in
hand (headers row plus data rows): the processing loop, the analysis
section, the total line and the chosen output mode.  `writeResult` models
the filesystem: `none` is a successful write, `some msg` an `IOError` with
message `msg` raised inside `export_to_file`. -/
def afterDecode (ef output_file : Option String) (writeResult : Option String)
    (headers : List String) (urls : List (List String)) : List OutEvent × Nat :=
  let loop := processRowsEv ef headers urls.length 0 ⟨[], []⟩ urls
  let pre := .stdoutLine "\nProcessing URLs..." :: loop.1
  match loop.2 with
  | .error e => (pre ++ [.stdoutLine ("Unexpected error: " ++ pyErrMsg e)], 1)
  | .ok st =>
    let counts := analyze_extensions st.all_urls
    let analysis := [.stdoutLine "\nAnalysis of file types found:", .stdoutLine sepLine50] ++
      extReportEvents counts ++
      [.stdoutLine ("\nTotal unique URLs found: " ++ toString st.unique.length)]
    match output_file with
    | some f =>
      match writeResult with
      | none =>
        (pre ++ analysis ++
          [.fileWrite f (exportContent st.unique),
           .stdoutLine ("\nResults exported to: " ++ f)], 0)
      | some msg =>
        (pre ++ analysis ++ [.stdoutLine ("Error writing to file: " ++ msg)], 1)
    | none =>
      (pre ++ analysis ++ stdoutBlocks st.unique, 0)

/-- Model of `get_wayback_urls(domain, extension_filter, output_file)` with
the environment (network and filesystem) passed in explicitly.  A plain
`return` of the Python function lets `main` finish, so it appears as exit
status 0. -/
def get_wayback_urls (domain : String) (ef output_file : Option String)
    (fetch : FetchOutcome) (writeResult : Option String) : RunResult :=
  if domain = "" then
    { events := [.stdoutLine "Error: Please provide a valid domain"], exitCode := 0 }
  else
    let parsed_domain := pyUrlparseNetloc (normalizeDomain domain)
    let banner := searchBanner parsed_domain
    match fetch with
    | .requestError msg =>
      { events := [banner, .stdoutLine ("Error fetching data: " ++ msg)], exitCode := 1 }
    | .jsonError =>
      { events := [banner, .stdoutLine "Error processing server response"], exitCode := 1 }
    | .ok results =>
      if results.length ≤ 1 then
        { events := [banner, .stdoutLine "No archived URLs found for this domain."],
          exitCode := 0 }
      else
        match results with
        | [] =>
          { events := [banner, .stdoutLine "No archived URLs found for this domain."],
            exitCode := 0 }
        | headers :: urls =>
          let tail := afterDecode ef output_file writeResult headers urls
          { events := banner :: tail.1, exitCode := tail.2 }

/-- Stand-in for the text `parser.print_help()` emits (its content is
argparse boilerplate the claims never inspect). -/
def argparseHelp : String := "usage: WebPastMachine.py [-h] [-e EXTENSION] [-o OUTPUT] [domain]"

/-- Model of `main()` (named `mainRun` because `main` is reserved for entry
points): `args.domain` is `none` when the positional argument was omitted;
an empty string is falsy in Python, so it also takes the help-and-exit
path. -/
def mainRun (domainArg ef output_file : Option String) (fetch : FetchOutcome)
    (writeResult : Option String) : RunResult :=
  match domainArg with
  | none => { events := [.stdoutLine argparseHelp], exitCode := 1 }
  | some d =>
    if d = "" then { events := [.stdoutLine argparseHelp], exitCode := 1 }
    else get_wayback_urls d ef output_file fetch writeResult

/-! ### Lemmas about the dictionary and the processing loop -/

theorem lookupRec_append (l m : List (String × CaptureRecord)) (u : String) :
    lookupRec (l ++ m) u =
      match lookupRec l u with
      | some r => some r
      | none => lookupRec m u := by
  induction l with
  | nil => simp [lookupRec]
  | cons p t ih =>
    by_cases h : p.1 = u
    · simp [lookupRec, h]
    · simp [lookupRec, h, ih]

theorem lookupRec_eq_none_iff (l : List (String × CaptureRecord)) (u : String) :
    lookupRec l u = none ↔ u ∉ l.map Prod.fst := by
  induction l with
  | nil => simp [lookupRec]
  | cons p t ih =>
    by_cases h : p.1 = u
    · simp [lookupRec, h]
    · simp [lookupRec, h, ih, Ne.symm h]

/-- Case analysis of one successful loop iteration: the row is either
skipped (filter or duplicate) leaving the state unchanged, or appended as a
fresh record built from its `timestamp`. -/
theorem processRow_ok_cases {ef : Option String} {headers : List String}
    {st st' : LoopState} {row : List String}
    (h : processRow ef headers st row = .ok st') :
    ∃ u, dictGet headers row "original" = some u ∧
      ((st' = st ∧ (skipByFilter ef u = true ∨ (lookupRec st.unique u).isSome = true)) ∨
       (skipByFilter ef u = false ∧ lookupRec st.unique u = none ∧
        ∃ ts dt, dictGet headers row "timestamp" = some ts ∧ pyStrptime14 ts = some dt ∧
          st' = ⟨st.unique ++ [(u, ⟨pyFormatDateTime dt, archiveLinkOf ts u, ts⟩)],
                 st.all_urls ++ [u]⟩)) := by
  unfold processRow at h
  split at h
  next => exact absurd h (by simp)
  next u hg =>
    refine ⟨u, hg, ?_⟩
    split at h
    next hs =>
      cases h
      exact Or.inl ⟨rfl, Or.inl hs⟩
    next hs =>
      simp only [Bool.not_eq_true] at hs
      split at h
      next hl =>
        cases h
        exact Or.inl ⟨rfl, Or.inr hl⟩
      next hl =>
        have hnone : lookupRec st.unique u = none := by
          cases hc : lookupRec st.unique u with
          | none => rfl
          | some r => rw [hc] at hl; simp at hl
        split at h
        next => exact absurd h (by simp)
        next ts ht =>
          split at h
          next => exact absurd h (by simp)
          next dt hp =>
            cases h
            exact Or.inr ⟨hs, hnone, ts, dt, ht, hp, rfl⟩

/-- A key already bound keeps its record across one iteration. -/
theorem processRow_persists {ef : Option String} {headers : List String}
    {st st' : LoopState} {row : List String} {u : String} {r : CaptureRecord}
    (h : processRow ef headers st row = .ok st')
    (hu : lookupRec st.unique u = some r) :
    lookupRec st'.unique u = some r := by
  rcases processRow_ok_cases h with ⟨u₀, _, hcase⟩
  rcases hcase with ⟨rfl, _⟩ | ⟨_, _, ts, dt, _, _, rfl⟩
  · exact hu
  · simp only [lookupRec_append, hu]

/-- A key already bound keeps its record across the whole loop. -/
theorem processRows_persists {ef : Option String} {headers : List String}
    {st st' : LoopState} {rows : List (List String)} {u : String} {r : CaptureRecord}
    (h : processRows ef headers st rows = .ok st')
    (hu : lookupRec st.unique u = some r) :
    lookupRec st'.unique u = some r := by
  induction rows generalizing st with
  | nil => cases h; exact hu
  | cons row rs ih =>
    unfold processRows at h
    cases hr : processRow ef headers st row with
    | error e => rw [hr] at h; exact absurd h (by simp)
    | ok st₁ => rw [hr] at h; exact ih h (processRow_persists hr hu)

/-- The loop never unbinds a key. -/
theorem processRows_isSome {ef : Option String} {headers : List String}
    {st st' : LoopState} {rows : List (List String)} {u : String}
    (h : processRows ef headers st rows = .ok st')
    (hu : (lookupRec st.unique u).isSome = true) :
    (lookupRec st'.unique u).isSome = true := by
  cases hr : lookupRec st.unique u with
  | none => rw [hr] at hu; simp at hu
  | some r => rw [processRows_persists h hr]; rfl

/-- Distinctness of the dictionary keys is preserved by one iteration. -/
theorem processRow_nodup {ef : Option String} {headers : List String}
    {st st' : LoopState} {row : List String}
    (h : processRow ef headers st row = .ok st')
    (hn : (st.unique.map Prod.fst).Nodup) :
    (st'.unique.map Prod.fst).Nodup := by
  rcases processRow_ok_cases h with ⟨u₀, _, hcase⟩
  rcases hcase with ⟨rfl, _⟩ | ⟨_, hnone, ts, dt, _, _, rfl⟩
  · exact hn
  · simp only [List.map_append, List.map_cons, List.map_nil]
    rw [List.nodup_append]
    refine ⟨hn, List.nodup_singleton _, ?_⟩
    intro a ha hb
    simp only [List.mem_singleton] at hb
    subst hb
    exact (lookupRec_eq_none_iff _ _).mp hnone ha

/-- Distinctness of the dictionary keys is preserved by the loop. -/
theorem processRows_nodup {ef : Option String} {headers : List String}
    {st st' : LoopState} {rows : List (List String)}
    (h : processRows ef headers st rows = .ok st')
    (hn : (st.unique.map Prod.fst).Nodup) :
    (st'.unique.map Prod.fst).Nodup := by
  induction rows generalizing st with
  | nil => cases h; exact hn
  | cons row rs ih =>
    unfold processRows at h
    cases hr : processRow ef headers st row with
    | error e => rw [hr] at h; exact absurd h (by simp)
    | ok st₁ => rw [hr] at h; exact ih h (processRow_nodup hr hn)

/-- The keys of `unique_urls` and the `all_urls` list evolve in lock step. -/
theorem processRows_keys_eq_all {ef : Option String} {headers : List String}
    {st st' : LoopState} {rows : List (List String)}
    (h : processRows ef headers st rows = .ok st')
    (hk : st.unique.map Prod.fst = st.all_urls) :
    st'.unique.map Prod.fst = st'.all_urls := by
  induction rows generalizing st with
  | nil => cases h; exact hk
  | cons row rs ih =>
    unfold processRows at h
    cases hr : processRow ef headers st row with
    | error e => rw [hr] at h; exact absurd h (by simp)
    | ok st₁ =>
      rw [hr] at h
      refine ih h ?_
      rcases processRow_ok_cases hr with ⟨u₀, _, hcase⟩
      rcases hcase with ⟨rfl, _⟩ | ⟨_, _, ts, dt, _, _, rfl⟩
      · exact hk
      · simp [hk]

theorem lookupRec_isSome_iff (l : List (String × CaptureRecord)) (u : String) :
    (lookupRec l u).isSome = true ↔ u ∈ l.map Prod.fst := by
  induction l with
  | nil => simp [lookupRec]
  | cons p t ih =>
    by_cases h : p.1 = u
    · simp [lookupRec, h]
    · simp [lookupRec, h, ih, Ne.symm h]

/-- Retention predicate of a data row for URL `u`: the row's `original`
column is `u` and the extension filter keeps it. -/
def retainsFor (ef : Option String) (headers : List String) (u : String)
    (row : List String) : Bool :=
  (dictGet headers row "original" == some u) && !(skipByFilter ef u)

/-- First-wins provenance: a URL absent before the loop and bound after it
got its record from the first row that retains it — the record's timestamp
is that row's `timestamp` column, its date that timestamp parsed and
reformatted, its link the fixed archive pattern. -/
theorem processRows_first_occurrence {ef : Option String} {headers : List String}
    {st st' : LoopState} {rows : List (List String)} {u : String} {r : CaptureRecord}
    (h : processRows ef headers st rows = .ok st')
    (hu : lookupRec st.unique u = none)
    (hr : lookupRec st'.unique u = some r) :
    ∃ row, rows.find? (retainsFor ef headers u) = some row ∧
      dictGet headers row "timestamp" = some r.timestamp ∧
      (∃ dt, pyStrptime14 r.timestamp = some dt ∧ r.date = pyFormatDateTime dt) ∧
      r.archive_link = archiveLinkOf r.timestamp u := by
  induction rows generalizing st with
  | nil =>
    cases h
    rw [hu] at hr
    exact absurd hr (by simp)
  | cons row rs ih =>
    unfold processRows at h
    cases hpr : processRow ef headers st row with
    | error e => rw [hpr] at h; exact absurd h (by simp)
    | ok st₁ =>
      rw [hpr] at h
      by_cases hret : retainsFor ef headers u row = true
      · simp only [retainsFor, Bool.and_eq_true, beq_iff_eq, Bool.not_eq_true'] at hret
        obtain ⟨hgu, hskip⟩ := hret
        rcases processRow_ok_cases hpr with ⟨u₀, hg, hcase⟩
        rw [hgu] at hg
        have huu : u = u₀ := Option.some_inj.mp hg
        subst huu
        rcases hcase with ⟨rfl, hs | hl⟩ | ⟨_, _, ts, dt, ht, hp, rfl⟩
        · rw [hskip] at hs; exact absurd hs (by simp)
        · rw [hu] at hl; exact absurd hl (by simp)
        · have h1 : lookupRec
              (st.unique ++ [(u, ⟨pyFormatDateTime dt, archiveLinkOf ts u, ts⟩)]) u =
              some ⟨pyFormatDateTime dt, archiveLinkOf ts u, ts⟩ := by
            rw [lookupRec_append, hu]
            simp [lookupRec]
          have h2 := processRows_persists h h1
          rw [hr] at h2
          obtain rfl : r = ⟨pyFormatDateTime dt, archiveLinkOf ts u, ts⟩ :=
            Option.some_inj.mp h2
          refine ⟨row, ?_, ht, ⟨dt, hp, rfl⟩, rfl⟩
          rw [List.find?_cons_of_pos]
          simp [retainsFor, hgu, hskip]
      · have hnone : lookupRec st₁.unique u = none := by
          rcases processRow_ok_cases hpr with ⟨u₀, hg, hcase⟩
          rcases hcase with ⟨rfl, _⟩ | ⟨hskip, _, ts, dt, ht, hp, rfl⟩
          · exact hu
          · by_cases he : u₀ = u
            · subst he
              exact absurd (by simp [retainsFor, hg, hskip]) hret
            · show lookupRec (st.unique ++ _) u = none
              rw [lookupRec_append, hu]
              simp [lookupRec, he]
        rw [List.find?_cons_of_neg _ (by simpa using hret)]
        exact ih h hnone

/-- Every URL some row retains ends up bound after a successful loop. -/
theorem processRows_retained_present {ef : Option String} {headers : List String}
    {st st' : LoopState} {rows : List (List String)} {u : String}
    (h : processRows ef headers st rows = .ok st')
    (hrow : ∃ row ∈ rows, retainsFor ef headers u row = true) :
    (lookupRec st'.unique u).isSome = true := by
  induction rows generalizing st with
  | nil => rcases hrow with ⟨row, hm, _⟩; cases hm
  | cons row rs ih =>
    unfold processRows at h
    cases hpr : processRow ef headers st row with
    | error e => rw [hpr] at h; exact absurd h (by simp)
    | ok st₁ =>
      rw [hpr] at h
      rcases hrow with ⟨row', hm, hret⟩
      rcases List.mem_cons.mp hm with rfl | hm'
      · have hst₁ : (lookupRec st₁.unique u).isSome = true := by
          simp only [retainsFor, Bool.and_eq_true, beq_iff_eq, Bool.not_eq_true'] at hret
          obtain ⟨hgu, hskip⟩ := hret
          rcases processRow_ok_cases hpr with ⟨u₀, hg, hcase⟩
          rw [hgu] at hg
          have huu : u = u₀ := Option.some_inj.mp hg
          subst huu
          rcases hcase with ⟨rfl, hs | hl⟩ | ⟨_, _, ts, dt, ht, hp, rfl⟩
          · rw [hskip] at hs; exact absurd hs (by simp)
          · exact hl
          · show (lookupRec (st.unique ++ _) u).isSome = true
            rw [lookupRec_append]
            cases hx : lookupRec st.unique u <;> simp [lookupRec]
        exact processRows_isSome h hst₁
      · exact ih h ⟨row', hm', hret⟩

/-- A URL newly bound by a successful loop passed the extension filter. -/
theorem processRows_mem_skipFalse {ef : Option String} {headers : List String}
    {st st' : LoopState} {rows : List (List String)} {u : String}
    (h : processRows ef headers st rows = .ok st')
    (hmem : u ∈ st'.unique.map Prod.fst)
    (hnot : u ∉ st.unique.map Prod.fst) :
    skipByFilter ef u = false := by
  have hnone : lookupRec st.unique u = none := (lookupRec_eq_none_iff _ _).mpr hnot
  have hsome : (lookupRec st'.unique u).isSome = true := (lookupRec_isSome_iff _ _).mpr hmem
  cases hx : lookupRec st'.unique u with
  | none => rw [hx] at hsome; exact absurd hsome (by simp)
  | some r =>
    rcases processRows_first_occurrence h hnone hx with ⟨row, hfind, _⟩
    have := List.find?_some hfind
    simp only [retainsFor, Bool.and_eq_true, Bool.not_eq_true'] at this
    exact this.2

/-! ### Lemmas about events, counting and sorting -/

theorem processRowsEv_snd (ef : Option String) (headers : List String)
    (total : Nat) (st : LoopState) (rows : List (List String)) :
    ∀ i, (processRowsEv ef headers total i st rows).2 = processRows ef headers st rows := by
  induction rows generalizing st with
  | nil => intro i; rfl
  | cons row rs ih =>
    intro i
    unfold processRowsEv processRows
    cases hpr : processRow ef headers st row with
    | error e => simp [hpr]
    | ok st₁ => simp [hpr, ih]

/-- Classification of an event as the output-file write. -/
def isFileWrite : OutEvent → Bool
  | .fileWrite _ _ => true
  | _ => false

theorem progressEvents_no_fileWrite (i total : Nat) :
    ∀ ev ∈ progressEvents i total, isFileWrite ev = false := by
  intro ev h
  unfold progressEvents at h
  split at h
  · rcases List.mem_singleton.mp h with rfl; rfl
  · cases h

theorem processRowsEv_no_fileWrite (ef : Option String) (headers : List String)
    (total : Nat) (st : LoopState) (rows : List (List String)) :
    ∀ i, ∀ ev ∈ (processRowsEv ef headers total i st rows).1, isFileWrite ev = false := by
  induction rows generalizing st with
  | nil => intro i ev h; cases h
  | cons row rs ih =>
    intro i ev h
    unfold processRowsEv at h
    cases hpr : processRow ef headers st row with
    | error e =>
      rw [hpr] at h
      exact progressEvents_no_fileWrite i total ev h
    | ok st₁ =>
      rw [hpr] at h
      simp only [List.mem_append] at h
      rcases h with h | h
      · exact progressEvents_no_fileWrite i total ev h
      · exact ih st₁ (i + 1) ev h

theorem extReportEvents_no_fileWrite (counts : List (String × Nat)) :
    ∀ ev ∈ extReportEvents counts, isFileWrite ev = false := by
  intro ev h
  unfold extReportEvents at h
  split at h
  · rcases List.mem_singleton.mp h with rfl; rfl
  · rcases List.mem_map.mp h with ⟨p, _, rfl⟩; rfl

theorem stdoutBlocks_no_fileWrite (unique : List (String × CaptureRecord)) :
    ∀ ev ∈ stdoutBlocks unique, isFileWrite ev = false := by
  intro ev h
  unfold stdoutBlocks at h
  rcases List.mem_cons.mp h with rfl | h
  · rfl
  · rcases List.mem_flatMap.mp h with ⟨p, _, hm⟩
    fin_cases hm <;> rfl

theorem countOf_bumpCount (l : List (String × Nat)) (k e : String) :
    countOf (bumpCount l k) e = countOf l e + (if k = e then 1 else 0) := by
  induction l with
  | nil => by_cases h : k = e <;> simp [bumpCount, countOf, h]
  | cons p t ih =>
    obtain ⟨k', n⟩ := p
    by_cases h1 : k' = k
    · subst h1
      by_cases h2 : k' = e <;> simp [bumpCount, countOf, h2]
    · by_cases h2 : k' = e
      · subst h2
        have : ¬k = k' := fun hx => h1 hx.symm
        simp [bumpCount, countOf, h1, this]
      · simp [bumpCount, countOf, h1, h2, ih]

theorem countOf_foldl (ks : List String) (e : String) :
    ∀ acc, countOf (ks.foldl bumpCount acc) e = countOf acc e + ks.count e := by
  induction ks with
  | nil => intro acc; simp
  | cons k ks ih =>
    intro acc
    simp only [List.foldl_cons, ih, countOf_bumpCount, List.count_cons, beq_iff_eq]
    by_cases h : k = e <;> simp only [h, if_true, if_false] <;> omega

theorem countOf_countList (ks : List String) (e : String) :
    countOf (countList ks) e = ks.count e := by
  have := countOf_foldl ks e []
  simpa [countList, countOf] using this

theorem strLE_total : ∀ a b : List Char, strLE a b = true ∨ strLE b a = true := by
  intro a
  induction a with
  | nil => intro b; exact Or.inl rfl
  | cons x xs ih =>
    intro b
    cases b with
    | nil => exact Or.inr rfl
    | cons y ys =>
      by_cases h1 : x.toNat < y.toNat
      · left; simp [strLE, h1]
      · by_cases h2 : y.toNat < x.toNat
        · right; simp [strLE, h2]
        · rcases ih ys with h | h
          · left; simp [strLE, h1, h2, h]
          · right; simp [strLE, h1, h2, h]

theorem strLE_trans : ∀ a b c : List Char,
    strLE a b = true → strLE b c = true → strLE a c = true := by
  intro a
  induction a with
  | nil => intro b c _ _; rfl
  | cons x xs ih =>
    intro b c hab hbc
    cases b with
    | nil => simp [strLE] at hab
    | cons y ys =>
      cases c with
      | nil => simp [strLE] at hbc
      | cons z zs =>
        by_cases hxy : x.toNat < y.toNat
        · by_cases hyz : y.toNat < z.toNat
          · have hxz : x.toNat < z.toNat := Nat.lt_trans hxy hyz
            simp [strLE, hxz]
          · by_cases hzy : z.toNat < y.toNat
            · simp [strLE, hyz, hzy] at hbc
            · have hxz : x.toNat < z.toNat := by omega
              simp [strLE, hxz]
        · by_cases hyx : y.toNat < x.toNat
          · simp [strLE, hxy, hyx] at hab
          · simp only [strLE, if_neg hxy, if_neg hyx] at hab
            by_cases hyz : y.toNat < z.toNat
            · have hxz : x.toNat < z.toNat := by omega
              simp [strLE, hxz]
            · by_cases hzy : z.toNat < y.toNat
              · simp [strLE, hyz, hzy] at hbc
              · simp only [strLE, if_neg hyz, if_neg hzy] at hbc
                have h1 : ¬x.toNat < z.toNat := by omega
                have h2 : ¬z.toNat < x.toNat := by omega
                simp only [strLE, if_neg h1, if_neg h2]
                exact ih ys zs hab hbc

instance : IsTotal (String × Nat) extLE :=
  ⟨fun a b => by
    unfold extLE
    rcases Nat.lt_trichotomy a.2 b.2 with h | h | h
    · exact Or.inr (Or.inl h)
    · rcases strLE_total (chars a.1) (chars b.1) with h1 | h1
      · exact Or.inl (Or.inr ⟨h, h1⟩)
      · exact Or.inr (Or.inr ⟨h.symm, h1⟩)
    · exact Or.inl (Or.inl h)⟩

instance : IsTrans (String × Nat) extLE :=
  ⟨fun a b c hab hbc => by
    unfold extLE at hab hbc ⊢
    rcases hab with h1 | ⟨h1, h1'⟩ <;> rcases hbc with h2 | ⟨h2, h2'⟩
    · exact Or.inl (lt_trans h2 h1)
    · exact Or.inl (h2 ▸ h1)
    · exact Or.inl (h1 ▸ h2)
    · exact Or.inr ⟨h1.trans h2, strLE_trans _ _ _ h1' h2'⟩⟩

theorem takeWhile_all_stop {p : Char → Bool} (a : List Char) (b : Char) (c : List Char)
    (ha : ∀ x ∈ a, p x = true) (hb : p b = false) :
    (a ++ b :: c).takeWhile p = a := by
  induction a with
  | nil => simp [List.takeWhile, hb]
  | cons x xs ih =>
    have hx := ha x (by simp)
    simp only [List.cons_append, List.takeWhile_cons, hx, if_true]
    rw [ih (fun y hy => ha y (by simp [hy]))]

/-- Splitting off the part after the last `.`: when the path decomposes as
`pre ++ "." ++ sfx` with no `.` in `sfx`, the scan returns `sfx`. -/
theorem afterLastDot_eq (pre sfx : List Char) (h : '.' ∉ sfx) :
    (((pre ++ '.' :: sfx).reverse.takeWhile (fun c => c ≠ '.')).reverse) = sfx := by
  rw [List.reverse_append, List.reverse_cons, List.append_assoc, List.singleton_append]
  rw [takeWhile_all_stop sfx.reverse '.' pre.reverse ?_ (by simp)]
  · exact List.reverse_reverse sfx
  · intro x hx
    have : x ∈ sfx := List.mem_reverse.mp hx
    simp only [ne_eq, decide_eq_true_eq]
    exact fun hxe => h (hxe ▸ this)

/-- Computed form of the host for a schemeless domain: prepending
`http://` and taking the network-location yields the domain up to its
first `/`, `?` or `#` (for domains free of control characters, which the
tab/CR/LF removal and leading stripping would otherwise touch). -/
theorem netloc_http_prepend (d : String)
    (hclean : ∀ c ∈ chars d, isC0OrSpace c = false) :
    pyUrlparseNetloc ("http://" ++ d) =
      strOf (takeUntil (fun c => c = '/' || c = '?' || c = '#') (chars d)) := by
  have htab : ∀ c ∈ chars d, isTabCrLf c = false := by
    intro c hm
    have h32 := hclean c hm
    unfold isTabCrLf
    simp only [Bool.or_eq_false_iff, decide_eq_false_iff_not]
    refine ⟨⟨?_, ?_⟩, ?_⟩ <;> intro hcc <;> rw [hcc] at h32 <;> exact absurd h32 (by decide)
  have hfl : (chars d).filter (fun c => !isTabCrLf c) = chars d :=
    List.filter_eq_self.mpr (fun c hm => by rw [htab c hm]; rfl)
  have hc : chars ("http://" ++ d) = 'h' :: 't' :: 't' :: 'p' :: ':' :: '/' :: '/' :: chars d := by
    show ("http://" ++ d).data = _
    rw [String.data_append]
    rfl
  unfold pyUrlparseNetloc pyUrlsplit
  rw [hc]
  simp +decide only [List.dropWhile_cons, List.filter_cons, splitScheme, splitOnce,
    pyLower, List.map, Option.map, hfl, if_true, if_false, ite_true, ite_false]

/-- Test of the literal 14-digit `YYYYMMDDHHMMSS` shape. -/
def matches14Digit (s : String) : Bool :=
  s.length = 14 && (chars s).all Char.isDigit

/-! ### Claim theorems -/

/-- C5: for every schemeless domain (free of control characters, spaces and
IPv6 brackets, the region where the `urlparse` model is exact), the Fetcher
issues its single GET to the CDX endpoint built from the host
`urlparse("http://" + domain).netloc` with a 30-second timeout, and that
host is the domain up to its first `/`, `?` or `#`. -/
theorem spec_C5_fetch_request (d : String)
    (h1 : pyStartsWith d "http://" = false) (h2 : pyStartsWith d "https://" = false)
    (hclean : ∀ c ∈ chars d, isC0OrSpace c = false)
    (_hbl : '[' ∉ chars d) (_hbr : ']' ∉ chars d)
    (_hascii : ∀ c ∈ chars d, c.toNat < 128) :
    waybackRequest d =
      { url := waybackUrlFor (pyUrlparseNetloc ("http://" ++ d)), timeoutSeconds := 30 } ∧
    pyUrlparseNetloc ("http://" ++ d) =
      strOf (takeUntil (fun c => c = '/' || c = '?' || c = '#') (chars d)) := by
  constructor
  · unfold waybackRequest normalizeDomain
    rw [h1, h2]
    simp
  · exact netloc_http_prepend d hclean

theorem spec_C5_witness :
    waybackRequest "sub.example.com:8080/x" =
      { url := waybackUrlFor (pyUrlparseNetloc ("http://" ++ "sub.example.com:8080/x")),
        timeoutSeconds := 30 } ∧
    pyUrlparseNetloc ("http://" ++ "sub.example.com:8080/x") =
      strOf (takeUntil (fun c => c = '/' || c = '?' || c = '#') (chars "sub.example.com:8080/x")) :=
  spec_C5_fetch_request "sub.example.com:8080/x" (by decide) (by decide)
    (by decide) (by decide) (by decide) (by decide)

/-- C4: the Reporter prints the extension counts sorted by descending count
with ties broken in ascending alphabetical order (the printed list is a
permutation of the counts, sorted by that key), and on counts
{html: 3, css: 5, js: 5} the printed order is css: 5, js: 5, html: 3. -/
theorem spec_C4_report_order :
    (∀ counts : List (String × Nat),
      (sortedExtItems counts).Perm counts ∧ List.Sorted extLE (sortedExtItems counts)) ∧
    sortedExtItems [("html", 3), ("css", 5), ("js", 5)] =
      [("css", 5), ("js", 5), ("html", 3)] ∧
    extReportEvents [("html", 3), ("css", 5), ("js", 5)] =
      [.stdoutLine "*.css: 5 files", .stdoutLine "*.js: 5 files",
       .stdoutLine "*.html: 3 files"] := by
  refine ⟨fun counts =>
    ⟨List.perm_insertionSort extLE counts, List.sorted_insertionSort extLE counts⟩, ?_, ?_⟩
  · decide
  · decide

/-- C3: the extension analysis takes, per retained URL, the lowercased part
of the `urlparse` path after its last `.` — counted only when the path has
a `.` and the part is purely alphanumeric and shorter than 6 characters —
and the resulting counter counts exactly the occurrences of each extension;
`a.verylongext` is not counted, `a.PDF` counts under key `pdf`. -/
theorem spec_C3_extension_analysis :
    (∀ urls e, countOf (analyze_extensions urls) e = (urls.filterMap extOf).count e) ∧
    (∀ url pre sfx, chars (pyUrlparsePath url) = pre ++ '.' :: sfx → '.' ∉ sfx →
      extOf url =
        (if pyIsAlnum (strOf (pyLower sfx)) && (strOf (pyLower sfx)).length < 6 then
          some (strOf (pyLower sfx)) else none)) ∧
    extOf "http://x.com/a.verylongext" = none ∧
    extOf "http://x.com/a.PDF" = some "pdf" ∧
    countOf (analyze_extensions ["http://x.com/a.PDF"]) "pdf" = 1 := by
  refine ⟨?_, ?_, by decide, by decide, by decide⟩
  · intro urls e
    exact countOf_countList (urls.filterMap extOf) e
  · intro url pre sfx hdec hnot
    unfold extOf
    have hcont : (chars (pyUrlparsePath url)).contains '.' = true := by
      rw [hdec]
      simp [List.contains, List.elem_eq_mem]
    rw [if_pos hcont, hdec, afterLastDot_eq pre sfx hnot]

theorem spec_C3_witness :
    countOf (analyze_extensions ["http://x.com/a.PDF"]) "pdf" = 1 ∧
    extOf "http://x.com/a.PDF" =
      (if pyIsAlnum (strOf (pyLower (chars "PDF"))) &&
          (strOf (pyLower (chars "PDF"))).length < 6 then
        some (strOf (pyLower (chars "PDF"))) else none) :=
  ⟨spec_C3_extension_analysis.2.2.2.2,
   spec_C3_extension_analysis.2.1 "http://x.com/a.PDF" (chars "/a") (chars "PDF")
     (by decide) (by decide)⟩

/-- C10: the `timestamp` column is read and parsed only for rows that pass
the extension filter and whose URL is not yet bound: a row that fails the
filter or duplicates an already-bound URL is skipped silently — the state
is unchanged and no exception is raised — whatever its timestamp holds. -/
theorem spec_C10_lazy_timestamp_parse :
    ∀ (ef : Option String) (headers : List String) (st : LoopState)
      (row : List String) (u : String),
      dictGet headers row "original" = some u →
      (skipByFilter ef u = true ∨ (lookupRec st.unique u).isSome = true) →
      processRow ef headers st row = .ok st := by
  intro ef headers st row u hg hcase
  rcases hcase with hs | hl
  · simp [processRow, hg, hs]
  · by_cases hs : skipByFilter ef u = true <;> simp [processRow, hg, hs, hl]

theorem spec_C10_witness :
    processRow none ["timestamp", "original"]
      ⟨[("http://x.com/a", ⟨"2020-01-01 00:00:00",
          archiveLinkOf "20200101000000" "http://x.com/a", "20200101000000"⟩)],
        ["http://x.com/a"]⟩
      ["NOT-A-TIMESTAMP", "http://x.com/a"] =
    .ok ⟨[("http://x.com/a", ⟨"2020-01-01 00:00:00",
          archiveLinkOf "20200101000000" "http://x.com/a", "20200101000000"⟩)],
        ["http://x.com/a"]⟩ :=
  spec_C10_lazy_timestamp_parse none ["timestamp", "original"] _ _ "http://x.com/a"
    (by decide) (Or.inr (by decide))

/-- C2: with a given (nonempty) extension filter `f`, a data row is
retained only if its `original` URL ends with `"." + f` after lowercasing
both sides — a row failing the suffix test leaves the loop state unchanged,
and every URL bound by a successful loop passes the test; with filter
`"pdf"`, a URL ending `.PDF` is retained while one ending `.pdfx` is
dropped. -/
theorem spec_C2_extension_filter :
    (∀ (f : String) (headers : List String) (st : LoopState) (row : List String) (u : String),
      f ≠ "" →
      dictGet headers row "original" = some u →
      pyEndsWith (pyLowerS u) ("." ++ pyLowerS f) = false →
      processRow (some f) headers st row = .ok st) ∧
    (∀ (f : String) (headers : List String) (rows : List (List String))
        (st' : LoopState) (u : String),
      f ≠ "" →
      processRows (some f) headers ⟨[], []⟩ rows = .ok st' →
      u ∈ st'.unique.map Prod.fst →
      pyEndsWith (pyLowerS u) ("." ++ pyLowerS f) = true) ∧
    (processRows (some "pdf") ["timestamp", "original"] ⟨[], []⟩
        [["20200101000000", "http://x.com/a.PDF"], ["20200101000000", "http://x.com/b.pdfx"]] =
      .ok ⟨[("http://x.com/a.PDF",
             ⟨"2020-01-01 00:00:00", archiveLinkOf "20200101000000" "http://x.com/a.PDF",
              "20200101000000"⟩)],
           ["http://x.com/a.PDF"]⟩) := by
  refine ⟨?_, ?_, by rfl⟩
  · intro f headers st row u hf hg hsuf
    have hskip : skipByFilter (some f) u = true := by
      simp [skipByFilter, hf, hsuf]
    simp [processRow, hg, hskip]
  · intro f headers rows st' u hf h hmem
    have hs := processRows_mem_skipFalse h hmem (by simp)
    simp only [skipByFilter, Bool.and_eq_false_iff, Bool.not_eq_false',
      decide_eq_false_iff_not, ne_eq, not_not] at hs
    rcases hs with hs | hs
    · exact absurd hs hf
    · exact hs

theorem spec_C2_witness :
    processRow (some "pdf") ["timestamp", "original"] ⟨[], []⟩
      ["20200101000000", "http://x.com/b.pdfx"] = .ok ⟨[], []⟩ ∧
    processRows (some "pdf") ["timestamp", "original"] ⟨[], []⟩
        [["20200101000000", "http://x.com/a.PDF"], ["20200101000000", "http://x.com/b.pdfx"]] =
      .ok ⟨[("http://x.com/a.PDF",
             ⟨"2020-01-01 00:00:00", archiveLinkOf "20200101000000" "http://x.com/a.PDF",
              "20200101000000"⟩)],
           ["http://x.com/a.PDF"]⟩ :=
  ⟨spec_C2_extension_filter.1 "pdf" ["timestamp", "original"] ⟨[], []⟩
      ["20200101000000", "http://x.com/b.pdfx"] "http://x.com/b.pdfx"
      (by decide) (by decide) (by decide),
   spec_C2_extension_filter.2.2⟩

/-- C1: a successful pass of the Normalizer loop binds each distinct
retained URL exactly once (keys are distinct, and every URL some row
retains is bound), the record comes from the first row retaining that URL —
its timestamp is that row's `timestamp` column, its date is that timestamp
parsed by `strptime` and reformatted `YYYY-MM-DD HH:MM:SS`, its archive
link is `http://web.archive.org/web/<timestamp>/<originalURL>` — and the
spec's two identical example rows produce exactly one record with date
`2020-01-01 00:00:00`, the expected archive link, and total unique = 1. -/
theorem spec_C1_dedup_first_wins :
    (∀ (ef : Option String) (headers : List String) (rows : List (List String))
        (st' : LoopState),
      processRows ef headers ⟨[], []⟩ rows = .ok st' →
      ((st'.unique.map Prod.fst).Nodup ∧
       (∀ u, (∃ row ∈ rows, retainsFor ef headers u row = true) →
          (lookupRec st'.unique u).isSome = true) ∧
       (∀ u r, lookupRec st'.unique u = some r →
          ∃ row, rows.find? (retainsFor ef headers u) = some row ∧
            dictGet headers row "timestamp" = some r.timestamp ∧
            (∃ dt, pyStrptime14 r.timestamp = some dt ∧ r.date = pyFormatDateTime dt) ∧
            r.archive_link = "http://web.archive.org/web/" ++ r.timestamp ++ "/" ++ u))) ∧
    (processRows none ["timestamp", "original"] ⟨[], []⟩
        [["20200101000000", "http://ex.com/a.html"], ["20200101000000", "http://ex.com/a.html"]] =
      .ok ⟨[("http://ex.com/a.html",
             ⟨"2020-01-01 00:00:00",
              "http://web.archive.org/web/20200101000000/http://ex.com/a.html",
              "20200101000000"⟩)],
           ["http://ex.com/a.html"]⟩) ∧
    ([("http://ex.com/a.html",
       (⟨"2020-01-01 00:00:00",
         "http://web.archive.org/web/20200101000000/http://ex.com/a.html",
         "20200101000000"⟩ : CaptureRecord))].length = 1) := by
  refine ⟨?_, by rfl, rfl⟩
  intro ef headers rows st' h
  refine ⟨processRows_nodup h (by simp), ?_, ?_⟩
  · intro u hrow
    exact processRows_retained_present h hrow
  · intro u r hr
    rcases processRows_first_occurrence h rfl hr with ⟨row, hfind, ht, hdt, hlink⟩
    exact ⟨row, hfind, ht, hdt, by simpa [archiveLinkOf] using hlink⟩

theorem spec_C1_witness :
    processRows none ["timestamp", "original"] ⟨[], []⟩
        [["20200101000000", "http://ex.com/a.html"], ["20200101000000", "http://ex.com/a.html"]] =
      .ok ⟨[("http://ex.com/a.html",
             ⟨"2020-01-01 00:00:00",
              "http://web.archive.org/web/20200101000000/http://ex.com/a.html",
              "20200101000000"⟩)],
           ["http://ex.com/a.html"]⟩ ∧
    (([("http://ex.com/a.html",
        (⟨"2020-01-01 00:00:00",
          "http://web.archive.org/web/20200101000000/http://ex.com/a.html",
          "20200101000000"⟩ : CaptureRecord))].map Prod.fst).Nodup) :=
  ⟨spec_C1_dedup_first_wins.2.1,
   (spec_C1_dedup_first_wins.1 none ["timestamp", "original"]
      [["20200101000000", "http://ex.com/a.html"], ["20200101000000", "http://ex.com/a.html"]]
      _ spec_C1_dedup_first_wins.2.1).1⟩

/-! ### Whole-run reduction lemmas -/

theorem mainRun_ok_cons (d : String) (ef out w : Option String)
    (headers : List String) (urls : List (List String))
    (hd : d ≠ "") (hne : urls ≠ []) :
    mainRun (some d) ef out (.ok (headers :: urls)) w =
      { events := searchBanner (pyUrlparseNetloc (normalizeDomain d)) ::
          (afterDecode ef out w headers urls).1,
        exitCode := (afterDecode ef out w headers urls).2 } := by
  have hlen : ¬((headers :: urls).length ≤ 1) := by
    cases urls with
    | nil => exact absurd rfl hne
    | cons a l => simp
  simp only [mainRun, get_wayback_urls]
  rw [if_neg hd, if_neg hd]
  simp [hlen]
  intro hcontra
  exact absurd hcontra hne

theorem afterDecode_error (ef out w : Option String) (headers : List String)
    (urls : List (List String)) (e : PyErr)
    (h : processRows ef headers ⟨[], []⟩ urls = .error e) :
    afterDecode ef out w headers urls =
      (.stdoutLine "\nProcessing URLs..." ::
        ((processRowsEv ef headers urls.length 0 ⟨[], []⟩ urls).1 ++
         [.stdoutLine ("Unexpected error: " ++ pyErrMsg e)]), 1) := by
  simp only [afterDecode]
  rw [processRowsEv_snd, h]
  try rfl

theorem afterDecode_ok_stdout (ef w : Option String) (headers : List String)
    (urls : List (List String)) (st : LoopState)
    (h : processRows ef headers ⟨[], []⟩ urls = .ok st) :
    afterDecode ef none w headers urls =
      ((.stdoutLine "\nProcessing URLs..." ::
          (processRowsEv ef headers urls.length 0 ⟨[], []⟩ urls).1) ++
        ([.stdoutLine "\nAnalysis of file types found:", .stdoutLine sepLine50] ++
         extReportEvents (analyze_extensions st.all_urls) ++
         [.stdoutLine ("\nTotal unique URLs found: " ++ toString st.unique.length)]) ++
        stdoutBlocks st.unique, 0) := by
  simp only [afterDecode]
  rw [processRowsEv_snd, h]
  try rfl

theorem afterDecode_ok_write (ef : Option String) (f : String) (headers : List String)
    (urls : List (List String)) (st : LoopState)
    (h : processRows ef headers ⟨[], []⟩ urls = .ok st) :
    afterDecode ef (some f) none headers urls =
      ((.stdoutLine "\nProcessing URLs..." ::
          (processRowsEv ef headers urls.length 0 ⟨[], []⟩ urls).1) ++
        ([.stdoutLine "\nAnalysis of file types found:", .stdoutLine sepLine50] ++
         extReportEvents (analyze_extensions st.all_urls) ++
         [.stdoutLine ("\nTotal unique URLs found: " ++ toString st.unique.length)]) ++
        [.fileWrite f (exportContent st.unique),
         .stdoutLine ("\nResults exported to: " ++ f)], 0) := by
  simp only [afterDecode]
  rw [processRowsEv_snd, h]
  try rfl

theorem afterDecode_ok_write_fail (ef : Option String) (f msg : String)
    (headers : List String) (urls : List (List String)) (st : LoopState)
    (h : processRows ef headers ⟨[], []⟩ urls = .ok st) :
    afterDecode ef (some f) (some msg) headers urls =
      ((.stdoutLine "\nProcessing URLs..." ::
          (processRowsEv ef headers urls.length 0 ⟨[], []⟩ urls).1) ++
        ([.stdoutLine "\nAnalysis of file types found:", .stdoutLine sepLine50] ++
         extReportEvents (analyze_extensions st.all_urls) ++
         [.stdoutLine ("\nTotal unique URLs found: " ++ toString st.unique.length)]) ++
        [.stdoutLine ("Error writing to file: " ++ msg)], 1) := by
  simp only [afterDecode]
  rw [processRowsEv_snd, h]
  try rfl

set_option maxRecDepth 4000 in
/-- C6 counterexample: `"2020110000000"` has 13 digits, so it does not
match the 14-digit `YYYYMMDDHHMMSS` pattern, yet `strptime`'s regex
backtracking accepts it (as 2020-01-10 00:00:00, `1`-digit month), the run
terminates successfully with exit code 0 and even writes the output file —
refuting the claim that every retained row with a non-14-digit timestamp
aborts the whole operation. -/
theorem spec_C6_counterexample :
    matches14Digit "2020110000000" = false ∧
    pyStrptime14 "2020110000000" = some ⟨2020, 1, 10, 0, 0, 0⟩ ∧
    (mainRun (some "ex.com") none (some "out.txt")
        (.ok [["timestamp", "original"], ["2020110000000", "http://ex.com/x"]]) none).exitCode
      = 0 ∧
    OutEvent.fileWrite "out.txt"
        (exportContent [("http://ex.com/x",
          ⟨"2020-01-10 00:00:00", archiveLinkOf "2020110000000" "http://ex.com/x",
           "2020110000000"⟩)]) ∈
      (mainRun (some "ex.com") none (some "out.txt")
        (.ok [["timestamp", "original"], ["2020110000000", "http://ex.com/x"]]) none).events := by
  refine ⟨by decide, by decide, ?_, ?_⟩ <;> decide

/-- C6 amended: a retained, first-seen row fails with the fatal
`ValueError` exactly when `strptime` with format `%Y%m%d%H%M%S` rejects its
timestamp (a strictly weaker condition than "not 14 digits", since the
parser's 1-to-2-digit field widths accept some 9-to-13-digit strings); the
exception aborts the whole run with exit code 1 and nothing is written to
the output file. -/
theorem spec_C6_amended :
    (∀ (ef : Option String) (headers : List String) (st : LoopState)
        (row : List String) (u ts : String),
      dictGet headers row "original" = some u →
      skipByFilter ef u = false →
      lookupRec st.unique u = none →
      dictGet headers row "timestamp" = some ts →
      pyStrptime14 ts = none →
      processRow ef headers st row = .error .valueError) ∧
    (∀ (d : String) (ef out w : Option String) (headers : List String)
        (urls : List (List String)) (e : PyErr),
      d ≠ "" →
      processRows ef headers ⟨[], []⟩ urls = .error e →
      (mainRun (some d) ef out (.ok (headers :: urls)) w).exitCode = 1 ∧
      ∀ p c, OutEvent.fileWrite p c ∉
        (mainRun (some d) ef out (.ok (headers :: urls)) w).events) := by
  constructor
  · intro ef headers st row u ts hg hsf hnone ht hp
    simp [processRow, hg, hsf, hnone, ht, hp]
  · intro d ef out w headers urls e hd hloop
    have hne : urls ≠ [] := by
      intro hnil
      subst hnil
      exact absurd hloop (by simp [processRows])
    rw [mainRun_ok_cons d ef out w headers urls hd hne,
      afterDecode_error ef out w headers urls e hloop]
    refine ⟨rfl, ?_⟩
    intro p c hmem
    simp only [List.mem_cons, List.mem_append, List.mem_singleton] at hmem
    rcases hmem with h1 | h1 | h1 | h1
    · exact absurd h1 (by simp [searchBanner])
    · exact absurd h1 (by simp)
    · have := processRowsEv_no_fileWrite ef headers urls.length ⟨[], []⟩ urls 0 _ h1
      simp [isFileWrite] at this
    · exact absurd h1 (by simp)

theorem spec_C6_amended_witness :
    processRow none ["timestamp", "original"] ⟨[], []⟩ ["NOT-A-TIMESTAMP", "http://x.com/a"] =
      .error .valueError ∧
    (mainRun (some "ex.com") none (some "out.txt")
        (.ok [["timestamp", "original"], ["NOT-A-TIMESTAMP", "http://x.com/a"]]) none).exitCode
      = 1 :=
  ⟨spec_C6_amended.1 none ["timestamp", "original"] ⟨[], []⟩
      ["NOT-A-TIMESTAMP", "http://x.com/a"] "http://x.com/a" "NOT-A-TIMESTAMP"
      (by decide) (by decide) (by decide) (by decide) (by decide),
   (spec_C6_amended.2 "ex.com" none (some "out.txt") none ["timestamp", "original"]
      [["NOT-A-TIMESTAMP", "http://x.com/a"]] .valueError (by decide) (by rfl)).1⟩

/-- C7: a decoded response that is an empty array or a lone header row (at
most one element) makes the program print the search banner and the
"No archived URLs found for this domain." message, exit with status 0, and
emit no file write even when an output path was supplied. -/
theorem spec_C7_no_results (d : String) (ef out w : Option String)
    (results : List (List String))
    (hd : d ≠ "") (hlen : results.length ≤ 1) :
    mainRun (some d) ef out (.ok results) w =
      { events := [searchBanner (pyUrlparseNetloc (normalizeDomain d)),
                   .stdoutLine "No archived URLs found for this domain."],
        exitCode := 0 } := by
  simp only [mainRun, get_wayback_urls]
  rw [if_neg hd, if_neg hd]
  simp [hlen]

theorem spec_C7_witness :
    mainRun (some "ex.com") none (some "f.txt") (.ok [["timestamp", "original"]]) none =
      { events := [searchBanner (pyUrlparseNetloc (normalizeDomain "ex.com")),
                   .stdoutLine "No archived URLs found for this domain."],
        exitCode := 0 } :=
  spec_C7_no_results "ex.com" none (some "f.txt") none [["timestamp", "original"]]
    (by decide) (by decide)

theorem filter_isFileWrite_eq_nil {l : List OutEvent}
    (h : ∀ e ∈ l, isFileWrite e = false) : l.filter isFileWrite = [] :=
  List.filter_eq_nil_iff.mpr (fun a ha => by simp [h a ha])

/-- C8: the process exit status is always 0 or 1 — 1 when the domain
argument is missing or empty (argparse help path), on a network/HTTP-status
error, on a JSON decode error, when an exception escapes the row loop
("unexpected error"), and when the output file cannot be written; 0 on the
graceful "no results" path and on full success in either output mode.
Every failure case terminates the run at once (the model contains no retry
path: one `FetchOutcome` is consumed per run). -/
theorem spec_C8_exit_codes :
    (∀ (da ef out : Option String) (fetch : FetchOutcome) (w : Option String),
      (mainRun da ef out fetch w).exitCode = 0 ∨ (mainRun da ef out fetch w).exitCode = 1) ∧
    (∀ ef out fetch w, (mainRun none ef out fetch w).exitCode = 1) ∧
    (∀ ef out fetch w, (mainRun (some "") ef out fetch w).exitCode = 1) ∧
    (∀ d ef out w msg, d ≠ "" →
      (mainRun (some d) ef out (.requestError msg) w).exitCode = 1) ∧
    (∀ d ef out w, d ≠ "" → (mainRun (some d) ef out .jsonError w).exitCode = 1) ∧
    (∀ d ef out w headers urls e, d ≠ "" →
      processRows ef headers ⟨[], []⟩ urls = .error e →
      (mainRun (some d) ef out (.ok (headers :: urls)) w).exitCode = 1) ∧
    (∀ d ef f msg headers urls st, d ≠ "" → urls ≠ [] →
      processRows ef headers ⟨[], []⟩ urls = .ok st →
      (mainRun (some d) ef (some f) (.ok (headers :: urls)) (some msg)).exitCode = 1) ∧
    (∀ d ef out w results, d ≠ "" → results.length ≤ 1 →
      (mainRun (some d) ef out (.ok results) w).exitCode = 0) ∧
    (∀ d ef w headers urls st, d ≠ "" → urls ≠ [] →
      processRows ef headers ⟨[], []⟩ urls = .ok st →
      (mainRun (some d) ef none (.ok (headers :: urls)) w).exitCode = 0) ∧
    (∀ d ef f headers urls st, d ≠ "" → urls ≠ [] →
      processRows ef headers ⟨[], []⟩ urls = .ok st →
      (mainRun (some d) ef (some f) (.ok (headers :: urls)) none).exitCode = 0) := by
  refine ⟨?_, ?_, ?_, ?_, ?_, ?_, ?_, ?_, ?_, ?_⟩
  · intro da ef out fetch w
    cases da with
    | none => right; rfl
    | some d =>
      by_cases hd : d = ""
      · right; simp [mainRun, hd]
      · cases fetch with
        | requestError msg => right; simp [mainRun, get_wayback_urls, hd]
        | jsonError => right; simp [mainRun, get_wayback_urls, hd]
        | ok results =>
          by_cases hlen : results.length ≤ 1
          · left; simp [mainRun, get_wayback_urls, hd, hlen]
          · cases results with
            | nil => exact absurd (by simp) hlen
            | cons headers urls =>
              have hne : urls ≠ [] := by
                intro h
                subst h
                exact hlen (by simp)
              rw [mainRun_ok_cons d ef out w headers urls hd hne]
              cases hres : processRows ef headers ⟨[], []⟩ urls with
              | error e => right; rw [afterDecode_error ef out w headers urls e hres]
              | ok st =>
                cases out with
                | none => left; rw [afterDecode_ok_stdout ef w headers urls st hres]
                | some f =>
                  cases w with
                  | none => left; rw [afterDecode_ok_write ef f headers urls st hres]
                  | some msg =>
                    right
                    rw [afterDecode_ok_write_fail ef f msg headers urls st hres]
  · intro ef out fetch w; rfl
  · intro ef out fetch w; simp [mainRun]
  · intro d ef out w msg hd; simp [mainRun, get_wayback_urls, hd]
  · intro d ef out w hd; simp [mainRun, get_wayback_urls, hd]
  · intro d ef out w headers urls e hd hres
    have hne : urls ≠ [] := by
      intro h
      subst h
      exact absurd hres (by simp [processRows])
    rw [mainRun_ok_cons d ef out w headers urls hd hne,
      afterDecode_error ef out w headers urls e hres]
  · intro d ef f msg headers urls st hd hne hres
    rw [mainRun_ok_cons d ef (some f) (some msg) headers urls hd hne,
      afterDecode_ok_write_fail ef f msg headers urls st hres]
  · intro d ef out w results hd hlen
    simp [mainRun, get_wayback_urls, hd, hlen]
  · intro d ef w headers urls st hd hne hres
    rw [mainRun_ok_cons d ef none w headers urls hd hne,
      afterDecode_ok_stdout ef w headers urls st hres]
  · intro d ef f headers urls st hd hne hres
    rw [mainRun_ok_cons d ef (some f) none headers urls hd hne,
      afterDecode_ok_write ef f headers urls st hres]

theorem spec_C8_witness :
    (mainRun none none none (.ok []) none).exitCode = 1 ∧
    (mainRun (some "ex.com") none none (.requestError "timeout") none).exitCode = 1 ∧
    (mainRun (some "ex.com") none none .jsonError none).exitCode = 1 ∧
    (mainRun (some "ex.com") none none (.ok []) none).exitCode = 0 ∧
    (mainRun (some "ex.com") none (some "f.txt")
      (.ok [["timestamp", "original"], ["20200101000000", "http://ex.com/a"]])
      (some "disk full")).exitCode = 1 :=
  ⟨spec_C8_exit_codes.2.1 none none (.ok []) none,
   spec_C8_exit_codes.2.2.2.1 "ex.com" none none none "timeout" (by decide),
   spec_C8_exit_codes.2.2.2.2.1 "ex.com" none none none (by decide),
   spec_C8_exit_codes.2.2.2.2.2.2.2.1 "ex.com" none none none [] (by decide) (by decide),
   spec_C8_exit_codes.2.2.2.2.2.2.1 "ex.com" none "f.txt" "disk full"
     ["timestamp", "original"] [["20200101000000", "http://ex.com/a"]]
     ⟨[("http://ex.com/a",
        ⟨"2020-01-01 00:00:00", archiveLinkOf "20200101000000" "http://ex.com/a",
         "20200101000000"⟩)], ["http://ex.com/a"]⟩
     (by decide) (by decide) (by rfl)⟩

/-- C9: on a successful pass, with an output path the run performs exactly
one file write — the given path receives one four-line block (`URL:`,
`First capture:`, `Archive link:`, then 100 `-`) per retained URL, in the
dictionary's first-seen order (its keys coincide with `all_urls`, which
appends each URL at its first retention) — while without an output path no
file write occurs and stdout carries the leading `Total unique URLs found:
n` line (n the number of unique retained URLs) followed by the same blocks. -/
theorem spec_C9_output_modes (d f : String) (ef w : Option String)
    (headers : List String) (urls : List (List String)) (st : LoopState)
    (hd : d ≠ "") (hne : urls ≠ [])
    (hloop : processRows ef headers ⟨[], []⟩ urls = .ok st) :
    ((mainRun (some d) ef (some f) (.ok (headers :: urls)) none).events.filter isFileWrite =
      [.fileWrite f (exportContent st.unique)]) ∧
    exportContent st.unique =
      String.join (st.unique.map (fun p =>
        "URL: " ++ p.1 ++ "\n" ++ "First capture: " ++ p.2.date ++ "\n" ++
        "Archive link: " ++ p.2.archive_link ++ "\n" ++ sepLine100 ++ "\n")) ∧
    (∃ pre, (mainRun (some d) ef none (.ok (headers :: urls)) w).events =
        pre ++ .stdoutLine ("\nTotal unique URLs found: " ++ toString st.unique.length) ::
          stdoutBlocks st.unique) ∧
    ((mainRun (some d) ef none (.ok (headers :: urls)) w).events.filter isFileWrite = []) ∧
    st.unique.map Prod.fst = st.all_urls := by
  have hloopfw := processRowsEv_no_fileWrite ef headers urls.length ⟨[], []⟩ urls 0
  have hexfw := extReportEvents_no_fileWrite (analyze_extensions st.all_urls)
  have hfl : (processRowsEv ef headers urls.length 0 ⟨[], []⟩ urls).1.filter isFileWrite = [] :=
    filter_isFileWrite_eq_nil hloopfw
  have hfe : (extReportEvents (analyze_extensions st.all_urls)).filter isFileWrite = [] :=
    filter_isFileWrite_eq_nil hexfw
  refine ⟨?_, rfl, ?_, ?_, processRows_keys_eq_all hloop rfl⟩
  · rw [mainRun_ok_cons d ef (some f) none headers urls hd hne,
      afterDecode_ok_write ef f headers urls st hloop]
    simp [List.filter_append, List.filter_cons, isFileWrite, hfl, hfe, searchBanner]
  · rw [mainRun_ok_cons d ef none w headers urls hd hne,
      afterDecode_ok_stdout ef w headers urls st hloop]
    refine ⟨searchBanner (pyUrlparseNetloc (normalizeDomain d)) ::
      (.stdoutLine "\nProcessing URLs..." ::
        (processRowsEv ef headers urls.length 0 ⟨[], []⟩ urls).1) ++
      ([.stdoutLine "\nAnalysis of file types found:", .stdoutLine sepLine50] ++
       extReportEvents (analyze_extensions st.all_urls)), ?_⟩
    simp
  · rw [mainRun_ok_cons d ef none w headers urls hd hne,
      afterDecode_ok_stdout ef w headers urls st hloop]
    have hbl : (stdoutBlocks st.unique).filter isFileWrite = [] :=
      filter_isFileWrite_eq_nil (stdoutBlocks_no_fileWrite st.unique)
    simp [List.filter_append, List.filter_cons, isFileWrite, hfl, hfe, hbl, searchBanner]

theorem spec_C9_witness :
    ((mainRun (some "ex.com") none (some "out.txt")
        (.ok [["timestamp", "original"], ["20200101000000", "http://ex.com/a.html"]])
        none).events.filter isFileWrite =
      [.fileWrite "out.txt" (exportContent
        [("http://ex.com/a.html",
          ⟨"2020-01-01 00:00:00", archiveLinkOf "20200101000000" "http://ex.com/a.html",
           "20200101000000"⟩)])]) ∧
    ([("http://ex.com/a.html",
       (⟨"2020-01-01 00:00:00", archiveLinkOf "20200101000000" "http://ex.com/a.html",
         "20200101000000"⟩ : CaptureRecord))].map Prod.fst = ["http://ex.com/a.html"]) := by
  have h := spec_C9_output_modes "ex.com" "out.txt" none none ["timestamp", "original"]
    [["20200101000000", "http://ex.com/a.html"]]
    ⟨[("http://ex.com/a.html",
       ⟨"2020-01-01 00:00:00", archiveLinkOf "20200101000000" "http://ex.com/a.html",
        "20200101000000"⟩)], ["http://ex.com/a.html"]⟩
    (by decide) (by decide) (by rfl)
  exact ⟨h.1, h.2.2.2.2⟩
